import Mathlib

/-!
Shallow embedding of the lox-rs lexical scanner (src/scanner.rs, src/token.rs)
and of the error-reporting collaborator (src/main.rs), together with proofs of
the specified properties.

Modelling conventions:
* Rust `&str` source text and `String` lexemes/payloads are modelled as
  `List Char`; the Rust byte offsets `start`/`current` become character
  indices (the spec's scope is ASCII, where the two coincide).
* The Rust `f64` payload of `TokenType::Number` is modelled as the exact
  rational value of the decimal lexeme (`parseDecimal`); none of the
  specified properties depends on binary floating-point rounding.
* Each `while` loop of the Rust code becomes a structurally recursive
  function over the unconsumed suffix of the source (the inner loops) or a
  fuel-indexed loop whose fuel is the number of unconsumed characters (the
  top-level loop); `scan_token_current_lt` shows every iteration consumes at
  least one character, so the fuel never runs out
  (`scanLoopFuel_fuel_irrelevant`).
* Invocations of the reporting hook `super::error(line, message)` are
  recorded in order in the `errors` field of the scanner state; `report`
  models what the hook in src/main.rs does with each invocation
  (`HAD_ERROR` is an `OnceLock<bool>`, modelled as `Option Bool`, and a
  result of `none` models a panic of the unwrapped failed `set`).
-/

namespace LoxRs

/-- The null character `'\0'` that the Rust cursor helpers return at end of
input. -/
def nullChar : Char := Char.ofNat 0

/-- The `'\x7b'` character (left curly brace). -/
def leftBraceChar : Char := Char.ofNat 123

/-- The `'\x7d'` character (right curly brace). -/
def rightBraceChar : Char := Char.ofNat 125

/-- Token kinds, from `TokenType` in src/token.rs.  Rust keywords that clash
with Lean keywords get a trailing underscore.  `number` carries the exact
rational value of the decimal lexeme (Rust stores the `f64` parse of it). -/
inductive TokenType where
  | leftParen | rightParen | leftBrace | rightBrace
  | comma | dot | minus | plus | semicolon | slash | star
  | bang | bangEqual | equal | equalEqual
  | greater | greaterEqual | less | lessEqual
  | identifier (value : List Char)
  | string (value : List Char)
  | number (value : ℚ)
  | and | class_ | else_ | false_ | fun_ | for_ | if_ | nil
  | or | print | return_ | super_ | this_ | true_ | var | while_
  | eof
  deriving DecidableEq, Repr

/-- `Token` from src/token.rs: kind, exact source lexeme, 1-based line. -/
structure Token where
  token_type : TokenType
  lexeme : List Char
  line : Nat
  deriving DecidableEq, Repr

/-- The keyword table of src/scanner.rs (`KEYWORDS` / `get_keyword_token`):
a fixed map from reserved-word spelling to keyword kind. -/
def get_keyword_token (literal : List Char) : Option TokenType :=
  if literal = "and".data then some TokenType.and
  else if literal = "class".data then some TokenType.class_
  else if literal = "else".data then some TokenType.else_
  else if literal = "false".data then some TokenType.false_
  else if literal = "for".data then some TokenType.for_
  else if literal = "fun".data then some TokenType.fun_
  else if literal = "if".data then some TokenType.if_
  else if literal = "nil".data then some TokenType.nil
  else if literal = "or".data then some TokenType.or
  else if literal = "print".data then some TokenType.print
  else if literal = "return".data then some TokenType.return_
  else if literal = "super".data then some TokenType.super_
  else if literal = "this".data then some TokenType.this_
  else if literal = "true".data then some TokenType.true_
  else if literal = "var".data then some TokenType.var
  else if literal = "while".data then some TokenType.while_
  else none

/-- The sixteen reserved spellings of the keyword table. -/
def keywordSpellings : List (List Char) :=
  ["and".data, "class".data, "else".data, "false".data, "for".data, "fun".data,
   "if".data, "nil".data, "or".data, "print".data, "return".data, "super".data,
   "this".data, "true".data, "var".data, "while".data]

/-- Modelled from the spec: `utils::is_alpha` (the file src/utils.rs is not in
the repository snapshot; only its callers are).  The spec says alphabetic
means ASCII letter or underscore. -/
def is_alpha (c : Char) : Bool :=
  (97 ≤ c.toNat && c.toNat ≤ 122) || (65 ≤ c.toNat && c.toNat ≤ 90) || c.toNat == 95

/-- Modelled from the spec: `utils::is_alphanumeric` (src/utils.rs is not in
the repository snapshot).  The spec says alphanumeric-or-underscore. -/
def is_alphanumeric (c : Char) : Bool :=
  is_alpha c || c.isDigit

/-- The exact rational value of a decimal lexeme `digits[.digits]`; this
models the `str_value.parse::<f64>().unwrap()` of `scan_number_literal`
(`digitsVal` is the value of a digit string). -/
def digitsVal (cs : List Char) : Nat :=
  cs.foldl (fun a c => 10 * a + (c.toNat - 48)) 0

/-- See `digitsVal`: the value of `ip.fp` is `(ip * 10 ^ k + fp) / 10 ^ k`
where `k` is the number of fractional digits. -/
def parseDecimal (cs : List Char) : ℚ :=
  let ip := cs.takeWhile (fun c => c != '.')
  let fp := (cs.dropWhile (fun c => c != '.')).drop 1
  mkRat (digitsVal ip * 10 ^ fp.length + digitsVal fp) (10 ^ fp.length)

/-- The scanner state of src/scanner.rs, plus the trace of invocations of the
error-reporting hook `super::error(line, message)` (the `errors` field, in
invocation order). -/
structure Scanner where
  source : List Char
  start : Nat
  current : Nat
  line : Nat
  tokens : List Token
  errors : List (Nat × String)
  deriving DecidableEq, Repr

/-- `Scanner::new`. -/
def Scanner.new (source : List Char) : Scanner :=
  { source := source, start := 0, current := 0, line := 1, tokens := [], errors := [] }

/-- `is_at_end`: `self.current >= self.source.len()`. -/
def is_at_end (s : Scanner) : Bool :=
  s.source.length ≤ s.current

/-- `advance`: return the character at `current` and move the read head one
step.  (In Rust the slice panics when called at end of input; every call
site guards with `is_at_end`/`peek`, so the `nullChar` default is never
observed.) -/
def advance (s : Scanner) : Scanner × Char :=
  ({ s with current := s.current + 1 }, s.source.getD s.current nullChar)

/-- `peek`: the character at `current`, or `'\0'` at end of input. -/
def peek (s : Scanner) : Char :=
  if is_at_end s then nullChar else s.source.getD s.current nullChar

/-- `peek_next`: the character at `current + 1`, or `'\0'` when past the end. -/
def peek_next (s : Scanner) : Char :=
  if s.source.length ≤ s.current + 1 then nullChar
  else s.source.getD (s.current + 1) nullChar

/-- `matches`: consume the next character iff it equals `expected`.
(`matches` is a reserved word in Lean, hence the longer name.) -/
def matchesChar (s : Scanner) (expected : Char) : Scanner × Bool :=
  if is_at_end s then (s, false)
  else if s.source.getD s.current nullChar ≠ expected then (s, false)
  else ({ s with current := s.current + 1 }, true)

/-- `add_token`: push a token whose lexeme is `source[start..current]`,
stamped with the current line. -/
def add_token (s : Scanner) (token_type : TokenType) : Scanner :=
  { s with tokens :=
      s.tokens ++ [⟨token_type, (s.source.drop s.start).take (s.current - s.start), s.line⟩] }

/-- The `while self.peek() != '\x22' && !self.is_at_end()` loop of
`scan_string_literal`, as structural recursion over the unconsumed suffix of
the source: returns (characters consumed, newlines seen among them). -/
def stringLoopAux : List Char → Nat × Nat
  | [] => (0, 0)
  | c :: rest =>
    if c = '\"' then (0, 0)
    else
      let (n, k) := stringLoopAux rest
      (n + 1, k + (if c = '\n' then 1 else 0))

/-- The `while self.peek().is_numeric()` loops of `scan_number_literal`:
the number of leading decimal digits of the unconsumed suffix.
(Rust `char::is_numeric` restricted to ASCII, the spec's scope.) -/
def digitLoopAux : List Char → Nat
  | [] => 0
  | c :: rest => if c.isDigit then digitLoopAux rest + 1 else 0

/-- The `while utils::is_alphanumeric(self.peek())` loop of `scan_identifier`:
the number of leading identifier characters of the unconsumed suffix. -/
def identLoopAux : List Char → Nat
  | [] => 0
  | c :: rest => if is_alphanumeric c then identLoopAux rest + 1 else 0

/-- The comment loop of `scan_token` (`while self.peek() != '\n' && ...`):
the number of characters consumed before the next newline or end of input. -/
def commentLoopAux : List Char → Nat
  | [] => 0
  | c :: rest => if c = '\n' then 0 else commentLoopAux rest + 1

/-- `scan_string_literal`, src/scanner.rs lines 160-179. -/
def scan_string_literal (s : Scanner) : Scanner :=
  let p := stringLoopAux (s.source.drop s.current)
  let s := { s with current := s.current + p.1, line := s.line + p.2 }
  if is_at_end s then
    -- super::error(self.line, "Unterminated string.").unwrap()
    { s with errors := s.errors ++ [(s.line, "Unterminated string.")] }
  else
    -- The closing quote
    let s := (advance s).1
    -- Trim the surrounding quotes
    let value := (s.source.drop (s.start + 1)).take (s.current - 1 - (s.start + 1))
    add_token s (TokenType.string value)

/-- `scan_number_literal`, src/scanner.rs lines 140-158. -/
def scan_number_literal (s : Scanner) : Scanner :=
  let s := { s with current := s.current + digitLoopAux (s.source.drop s.current) }
  -- Look for fractional part
  let s :=
    if peek s = '.' ∧ (peek_next s).isDigit then
      let s := (advance s).1
      { s with current := s.current + digitLoopAux (s.source.drop s.current) }
    else s
  let str_value := (s.source.drop s.start).take (s.current - s.start)
  add_token s (TokenType.number (parseDecimal str_value))

/-- `scan_identifier`, src/scanner.rs lines 128-138. -/
def scan_identifier (s : Scanner) : Scanner :=
  let s := { s with current := s.current + identLoopAux (s.source.drop s.current) }
  let value := (s.source.drop s.start).take (s.current - s.start)
  match get_keyword_token value with
  | none => add_token s (TokenType.identifier value)
  | some token_type => add_token s token_type

/-- `scan_token`, src/scanner.rs lines 61-126: consume one character and
dispatch.  The Rust `match` on the consumed character becomes a chain of
conditionals in source order. -/
def scan_token (s0 : Scanner) : Scanner :=
  let c := (advance s0).2
  let s := (advance s0).1
  if c = '(' then add_token s TokenType.leftParen
  else if c = ')' then add_token s TokenType.rightParen
  else if c = leftBraceChar then add_token s TokenType.leftBrace
  else if c = rightBraceChar then add_token s TokenType.rightBrace
  else if c = ',' then add_token s TokenType.comma
  else if c = '.' then add_token s TokenType.dot
  else if c = '-' then add_token s TokenType.minus
  else if c = '+' then add_token s TokenType.plus
  else if c = ';' then add_token s TokenType.semicolon
  else if c = '*' then add_token s TokenType.star
  else if c = '!' then
    (if (matchesChar s '=').2 then add_token (matchesChar s '=').1 TokenType.bangEqual
     else add_token (matchesChar s '=').1 TokenType.bang)
  else if c = '=' then
    (if (matchesChar s '=').2 then add_token (matchesChar s '=').1 TokenType.equalEqual
     else add_token (matchesChar s '=').1 TokenType.equal)
  else if c = '<' then
    (if (matchesChar s '=').2 then add_token (matchesChar s '=').1 TokenType.lessEqual
     else add_token (matchesChar s '=').1 TokenType.less)
  else if c = '>' then
    (if (matchesChar s '=').2 then add_token (matchesChar s '=').1 TokenType.greaterEqual
     else add_token (matchesChar s '=').1 TokenType.greater)
  else if c = '/' then
    (if (matchesChar s '/').2 then
      -- A comment goes until the end of the line
      let s := (matchesChar s '/').1
      { s with current := s.current + commentLoopAux (s.source.drop s.current) }
     else add_token (matchesChar s '/').1 TokenType.slash)
  else if c = ' ' ∨ c = '\r' ∨ c = '\t' then s -- Ignore whitespace
  else if c = '\n' then { s with line := s.line + 1 }
  else if c = '\"' then scan_string_literal s
  else if c.isDigit then scan_number_literal s
  else if is_alpha c then scan_identifier s
  else
    -- super::error(self.line, "Unexpected character.").unwrap()
    { s with errors := s.errors ++ [(s.line, "Unexpected character.")] }

/-- The `while !self.is_at_end()` loop of `scan_tokens`, with explicit fuel;
`scan_token` consumes at least one character per iteration
(`scan_token_current_lt`), so fuel `source.length - current` is never
exhausted (`scanLoopFuel_fuel_irrelevant`). -/
def scanLoopFuel : Nat → Scanner → Scanner
  | 0, s => s
  | fuel + 1, s =>
    if is_at_end s then s
    else
      -- We are at the beginning of the next lexeme
      scanLoopFuel fuel (scan_token { s with start := s.current })

/-- `scan_tokens`, src/scanner.rs lines 51-59: run the scan loop to the end
of input, then push the end-marker token with empty lexeme. -/
def scan_tokens (s : Scanner) : Scanner :=
  let t := scanLoopFuel (s.source.length - s.current) s
  { t with tokens := t.tokens ++ [⟨TokenType.eof, [], t.line⟩] }

/-! ### The error-reporting collaborator, src/main.rs -/

/-- `report` from src/main.rs lines 31-36, acting on the process-wide
`HAD_ERROR : OnceLock<bool>` (modelled as `Option Bool`, `none` = unset).
The code runs `HAD_ERROR.set(false).unwrap()`: when the cell is unset the
set succeeds and stores `false`; when it is already set, `OnceLock::set`
returns `Err` and the `unwrap` panics (modelled as `none`). -/
def report (had_error : Option Bool) : Option (Option Bool) :=
  match had_error with
  | none => some (some false)
  | some _ => none

/-- Feed the scanner's hook invocations to `report` in order; `none` models
a panic escaping from the scan. -/
def runReports (had_error : Option Bool) : List (Nat × String) → Option (Option Bool)
  | [] => some had_error
  | _ :: rest =>
    match report had_error with
    | none => none
    | some had_error' => runReports had_error' rest

/-- One `run` of a source text in a process whose `HAD_ERROR` cell holds
`had_error`: scan, applying the reporting hook at each error, and return the
final scanner state and cell contents; `none` models the panic that escapes
`scan_tokens` when a report fails. -/
def scanProcess (had_error : Option Bool) (source : List Char) :
    Option (Scanner × Option Bool) :=
  let s := scan_tokens (Scanner.new source)
  match runReports had_error s.errors with
  | none => none
  | some had_error' => some (s, had_error')

/-! ### Invariants of the scan loop -/

/-- The facts about one `scan_token` step that the line-number claims rest
on: the source is untouched, at least one character is consumed and the
cursor stays within bounds, the line counter never decreases, at most one
token is appended and it is stamped with the line reached at the end of the
step, and the invariant "line = 1 + newlines consumed so far" transfers. -/
structure StepFacts (s r : Scanner) : Prop where
  source_eq : r.source = s.source
  current_lt : s.current < r.current
  current_le : r.current ≤ s.source.length
  line_le : s.line ≤ r.line
  tokens_app : r.tokens = s.tokens ∨
    ∃ t : Token, r.tokens = s.tokens ++ [t] ∧ t.line = r.line
  line_inv : s.line = 1 + (s.source.take s.current).count '\n' →
    r.line = 1 + (s.source.take r.current).count '\n'

/-- Monotone line stamps: the lines of the tokens emitted so far, extended
with the current line counter, form a `≤`-chain starting at 1. -/
def LineInv (s : Scanner) : Prop :=
  List.Chain' (· ≤ ·) (1 :: (s.tokens.map Token.line ++ [s.line]))

/-! ### List helpers -/

/-- Splitting a `take` at an intermediate point. -/
theorem take_add' {α : Type} : ∀ (m : Nat) (l : List α) (n : Nat),
    l.take (m + n) = l.take m ++ (l.drop m).take n
  | 0, l, n => by simp
  | m + 1, [], n => by simp
  | m + 1, a :: t, n => by
    rw [Nat.add_right_comm]
    simp only [List.take_succ_cons, List.drop_succ_cons, List.cons_append]
    rw [take_add' m t n]

/-- Newline count of a prefix extended by a consumed segment. -/
theorem count_take_add (l : List Char) (m n : Nat) (a : Char) :
    (l.take (m + n)).count a = (l.take m).count a + ((l.drop m).take n).count a := by
  rw [take_add', List.count_append]

/-- Newline count of a prefix extended by one in-bounds character. -/
theorem count_take_succ_getD (l : List Char) (i : Nat) (hi : i < l.length) (a : Char) :
    (l.take (i + 1)).count a =
      (l.take i).count a + (if l.getD i nullChar = a then 1 else 0) := by
  rw [List.take_succ, List.getElem?_eq_getElem hi, List.count_append]
  congr 1
  rw [List.getD_eq_getElem?_getD, List.getElem?_eq_getElem hi]
  simp [List.count_cons, beq_iff_eq]

/-- A list without the counted character counts zero. -/
theorem count_zero_of_all_ne {l : List Char} {a : Char} (h : ∀ c ∈ l, c ≠ a) :
    l.count a = 0 :=
  List.count_eq_zero.2 (fun hmem => (h _ hmem) rfl)

/-- `getD` through `drop`. -/
theorem getD_drop (l : List Char) (m n : Nat) :
    (l.drop m).getD n nullChar = l.getD (m + n) nullChar := by
  simp [List.getD_eq_getElem?_getD, List.getElem?_drop]

/-! ### Loop characterizations -/

/-- The string loop never consumes more than the suffix. -/
theorem stringLoopAux_le (l : List Char) : (stringLoopAux l).1 ≤ l.length := by
  induction l with
  | nil => simp [stringLoopAux]
  | cons c rest ih =>
    by_cases hc : c = '\"' <;> simp [stringLoopAux, hc] <;> omega

/-- The string loop counts exactly the newlines it consumes. -/
theorem stringLoopAux_count (l : List Char) :
    (stringLoopAux l).2 = (l.take (stringLoopAux l).1).count '\n' := by
  induction l with
  | nil => simp [stringLoopAux]
  | cons c rest ih =>
    by_cases hc : c = '\"'
    · simp [stringLoopAux, hc]
    · cases hnk : stringLoopAux rest with
      | mk n k =>
        rw [hnk] at ih
        have ih' : k = (rest.take n).count '\n' := ih
        simp only [stringLoopAux, if_neg hc, hnk]
        simp [List.take_succ_cons, List.count_cons, beq_iff_eq, ih', Nat.add_comm]

/-- The string loop stops either at end of input or on a closing quote. -/
theorem stringLoopAux_stop (l : List Char) :
    (stringLoopAux l).1 = l.length ∨ l.getD (stringLoopAux l).1 nullChar = '\"' := by
  induction l with
  | nil => simp [stringLoopAux]
  | cons c rest ih =>
    by_cases hc : c = '\"'
    · right; simp [stringLoopAux, hc]
    · cases hnk : stringLoopAux rest with
      | mk n k =>
        rw [hnk] at ih
        simp only [stringLoopAux, if_neg hc, hnk]
        rcases ih with ih | ih
        · have ih' : n = rest.length := ih
          left
          simp [ih']
        · have ih' : rest.getD n nullChar = '\"' := ih
          right
          simpa using ih'

/-- The digit loop never consumes more than the suffix. -/
theorem digitLoopAux_le (l : List Char) : digitLoopAux l ≤ l.length := by
  induction l with
  | nil => simp [digitLoopAux]
  | cons c rest ih =>
    by_cases hc : c.isDigit <;> simp [digitLoopAux, hc] <;> omega

/-- Every character the digit loop consumes is a digit. -/
theorem digitLoopAux_digits (l : List Char) :
    ∀ c ∈ l.take (digitLoopAux l), c.isDigit = true := by
  induction l with
  | nil => simp [digitLoopAux]
  | cons c rest ih =>
    by_cases hc : c.isDigit
    · simp only [digitLoopAux, if_pos hc, List.take_succ_cons, List.mem_cons]
      rintro x (rfl | hx)
      · exact hc
      · exact ih x hx
    · simp [digitLoopAux, hc]

/-- The identifier loop never consumes more than the suffix. -/
theorem identLoopAux_le (l : List Char) : identLoopAux l ≤ l.length := by
  induction l with
  | nil => simp [identLoopAux]
  | cons c rest ih =>
    by_cases hc : is_alphanumeric c <;> simp [identLoopAux, hc] <;> omega

/-- Every character the identifier loop consumes is alphanumeric. -/
theorem identLoopAux_chars (l : List Char) :
    ∀ c ∈ l.take (identLoopAux l), is_alphanumeric c = true := by
  induction l with
  | nil => simp [identLoopAux]
  | cons c rest ih =>
    by_cases hc : is_alphanumeric c
    · simp only [identLoopAux, if_pos hc, List.take_succ_cons, List.mem_cons]
      rintro x (rfl | hx)
      · exact hc
      · exact ih x hx
    · simp [identLoopAux, hc]

/-- The comment loop never consumes more than the suffix. -/
theorem commentLoopAux_le (l : List Char) : commentLoopAux l ≤ l.length := by
  induction l with
  | nil => simp [commentLoopAux]
  | cons c rest ih =>
    by_cases hc : c = '\n' <;> simp [commentLoopAux, hc] <;> omega

/-- The comment loop consumes no newline. -/
theorem commentLoopAux_chars (l : List Char) :
    ∀ c ∈ l.take (commentLoopAux l), c ≠ '\n' := by
  induction l with
  | nil => simp [commentLoopAux]
  | cons c rest ih =>
    by_cases hc : c = '\n'
    · simp [commentLoopAux, hc]
    · simp only [commentLoopAux, if_neg hc, List.take_succ_cons, List.mem_cons]
      rintro x (rfl | hx)
      · exact hc
      · exact ih x hx

/-- A digit is not a newline. -/
theorem isDigit_ne_nl {c : Char} (h : c.isDigit = true) : c ≠ '\n' := by
  intro hc
  subst hc
  exact absurd h (by decide)

/-- An identifier character is not a newline. -/
theorem is_alphanumeric_ne_nl {c : Char} (h : is_alphanumeric c = true) : c ≠ '\n' := by
  intro hc
  subst hc
  exact absurd h (by decide)

/-! ### Cursor-helper characterizations -/

/-- A successful `matches` consumed exactly the expected character. -/
theorem matchesChar_true {s : Scanner} {e : Char} (h : (matchesChar s e).2 = true) :
    (matchesChar s e).1 = { s with current := s.current + 1 } ∧
    s.current < s.source.length ∧ s.source.getD s.current nullChar = e := by
  unfold matchesChar at h ⊢
  split_ifs at h ⊢ with h1 h2
  refine ⟨rfl, ?_, not_not.1 h2⟩
  simp only [is_at_end, decide_eq_true_eq] at h1
  omega

/-- A failed `matches` consumed nothing. -/
theorem matchesChar_false {s : Scanner} {e : Char} (h : (matchesChar s e).2 = false) :
    (matchesChar s e).1 = s := by
  unfold matchesChar at h ⊢
  split_ifs at h ⊢ <;> simp_all

/-- A non-null `peek` means the head character is in bounds. -/
theorem peek_eq_of_ne_null {s : Scanner} {c : Char} (h : peek s = c) (hc : c ≠ nullChar) :
    s.current < s.source.length ∧ s.source.getD s.current nullChar = c := by
  unfold peek at h
  split_ifs at h with h1
  · exact absurd h.symm hc
  · simp only [is_at_end, decide_eq_true_eq] at h1
    exact ⟨by omega, h⟩

/-! ### Step facts for `scan_token` and the sub-scanners -/

/-- Consuming one in-bounds non-newline character preserves the newline
count of the consumed prefix. -/
theorem count_take_succ_ne (l : List Char) (i : Nat) (hi : i < l.length)
    (hne : l.getD i nullChar ≠ '\n') :
    (l.take (i + 1)).count '\n' = (l.take i).count '\n' := by
  rw [count_take_succ_getD _ _ hi, if_neg hne, Nat.add_zero]

/-- Consuming one non-newline character and emitting a token. -/
theorem step_simple_emit (s : Scanner) (tt : TokenType)
    (h : s.current < s.source.length)
    (hnl : s.source.getD s.current nullChar ≠ '\n') :
    StepFacts s (add_token { s with current := s.current + 1 } tt) := by
  refine ⟨rfl, Nat.lt_succ_self _, h, le_refl _, Or.inr ⟨_, rfl, rfl⟩, ?_⟩
  intro hinv
  show s.line = 1 + (s.source.take (s.current + 1)).count '\n'
  rw [count_take_succ_ne _ _ h hnl]
  exact hinv

/-- Consuming one non-newline character and emitting nothing. -/
theorem step_skip (s : Scanner) (h : s.current < s.source.length)
    (hnl : s.source.getD s.current nullChar ≠ '\n') :
    StepFacts s { s with current := s.current + 1 } := by
  refine ⟨rfl, Nat.lt_succ_self _, h, le_refl _, Or.inl rfl, ?_⟩
  intro hinv
  show s.line = 1 + (s.source.take (s.current + 1)).count '\n'
  rw [count_take_succ_ne _ _ h hnl]
  exact hinv

/-- Consuming a newline: the line counter and the count grow together. -/
theorem step_newline (s : Scanner) (h : s.current < s.source.length)
    (hnl : s.source.getD s.current nullChar = '\n') :
    StepFacts s { s with current := s.current + 1, line := s.line + 1 } := by
  refine ⟨rfl, Nat.lt_succ_self _, h, Nat.le_succ _, Or.inl rfl, ?_⟩
  intro hinv
  show s.line + 1 = 1 + (s.source.take (s.current + 1)).count '\n'
  rw [count_take_succ_getD _ _ h, if_pos hnl]
  omega

/-- Consuming one non-newline character, optionally a second expected
non-newline character, and emitting a token: the two-character-operator
branches of `scan_token`. -/
theorem step_match_emit (s : Scanner) (e : Char) (tt : TokenType)
    (h : s.current < s.source.length)
    (hnl : s.source.getD s.current nullChar ≠ '\n') (hen : e ≠ '\n') :
    StepFacts s (add_token (matchesChar { s with current := s.current + 1 } e).1 tt) := by
  cases hm : (matchesChar { s with current := s.current + 1 } e).2 with
  | false =>
    rw [matchesChar_false hm]
    exact step_simple_emit s tt h hnl
  | true =>
    obtain ⟨heq, hlt, hgd⟩ := matchesChar_true hm
    have hlt' : s.current + 1 < s.source.length := hlt
    have hgd' : s.source.getD (s.current + 1) nullChar = e := hgd
    rw [heq]
    refine ⟨rfl, by show s.current < s.current + 1 + 1; omega,
      by show s.current + 1 + 1 ≤ s.source.length; omega, le_refl _,
      Or.inr ⟨_, rfl, rfl⟩, ?_⟩
    intro hinv
    show s.line = 1 + (s.source.take (s.current + 1 + 1)).count '\n'
    rw [count_take_succ_ne _ _ hlt' (by rw [hgd']; exact hen),
        count_take_succ_ne _ _ h hnl]
    exact hinv

/-- The facts about `scan_string_literal` from any in-bounds state: source
untouched, cursor only advances and stays in bounds, line only grows, at
most one token appended and stamped with the final line, and the newline
invariant transfers. -/
theorem scan_string_literal_facts (s : Scanner) (hle : s.current ≤ s.source.length) :
    (scan_string_literal s).source = s.source ∧
    s.current ≤ (scan_string_literal s).current ∧
    (scan_string_literal s).current ≤ s.source.length ∧
    s.line ≤ (scan_string_literal s).line ∧
    ((scan_string_literal s).tokens = s.tokens ∨
      ∃ t : Token, (scan_string_literal s).tokens = s.tokens ++ [t] ∧
        t.line = (scan_string_literal s).line) ∧
    (s.line = 1 + (s.source.take s.current).count '\n' →
      (scan_string_literal s).line =
        1 + (s.source.take (scan_string_literal s).current).count '\n') := by
  unfold scan_string_literal
  set n := (stringLoopAux (s.source.drop s.current)).1 with hn
  set k := (stringLoopAux (s.source.drop s.current)).2 with hk
  have hnle : n ≤ (s.source.drop s.current).length := stringLoopAux_le _
  have hcount : k = ((s.source.drop s.current).take n).count '\n' := stringLoopAux_count _
  have hstop : n = (s.source.drop s.current).length ∨
      (s.source.drop s.current).getD n nullChar = '\"' := stringLoopAux_stop _
  have hlen : (s.source.drop s.current).length = s.source.length - s.current := by simp
  by_cases hend : s.source.length ≤ s.current + n
  · rw [if_pos (by simp only [is_at_end, decide_eq_true_eq]; exact hend)]
    refine ⟨rfl, by show s.current ≤ s.current + n; omega,
      by show s.current + n ≤ s.source.length; omega,
      by show s.line ≤ s.line + k; omega, Or.inl rfl, ?_⟩
    intro hinv
    show s.line + k = 1 + (s.source.take (s.current + n)).count '\n'
    rw [count_take_add, ← hcount]
    omega
  · have hlt : s.current + n < s.source.length := by omega
    have hq : s.source.getD (s.current + n) nullChar = '\"' := by
      rcases hstop with h1 | h1
      · rw [hlen] at h1; omega
      · rw [getD_drop] at h1; exact h1
    rw [if_neg (by simp only [is_at_end, decide_eq_true_eq]; omega)]
    refine ⟨rfl, by show s.current ≤ s.current + n + 1; omega,
      by show s.current + n + 1 ≤ s.source.length; omega,
      by show s.line ≤ s.line + k; omega, Or.inr ⟨_, rfl, rfl⟩, ?_⟩
    intro hinv
    show s.line + k = 1 + (s.source.take (s.current + n + 1)).count '\n'
    rw [count_take_succ_ne _ _ hlt (by rw [hq]; decide), count_take_add, ← hcount]
    omega

/-- The facts about `scan_number_literal`: line untouched, exactly one token
appended and stamped with it, cursor in bounds, no newline consumed. -/
theorem scan_number_literal_facts (s : Scanner) (hle : s.current ≤ s.source.length) :
    (scan_number_literal s).source = s.source ∧
    s.current ≤ (scan_number_literal s).current ∧
    (scan_number_literal s).current ≤ s.source.length ∧
    (scan_number_literal s).line = s.line ∧
    (∃ t : Token, (scan_number_literal s).tokens = s.tokens ++ [t] ∧
      t.line = (scan_number_literal s).line) ∧
    (s.source.take (scan_number_literal s).current).count '\n'
      = (s.source.take s.current).count '\n' := by
  unfold scan_number_literal
  dsimp only
  set n1 := digitLoopAux (s.source.drop s.current) with hn1
  have hd1 := digitLoopAux_digits (s.source.drop s.current)
  have hnle1 : n1 ≤ (s.source.drop s.current).length := digitLoopAux_le _
  have hlen1 : (s.source.drop s.current).length = s.source.length - s.current := by simp
  have hcnt1 : (s.source.take (s.current + n1)).count '\n'
      = (s.source.take s.current).count '\n' := by
    rw [count_take_add,
      count_zero_of_all_ne (fun c hc => isDigit_ne_nl (hd1 c hc)), Nat.add_zero]
  by_cases hfrac : peek { s with current := s.current + n1 } = '.' ∧
      ((peek_next { s with current := s.current + n1 }).isDigit = true)
  · rw [if_pos hfrac]
    obtain ⟨hdot, -⟩ := hfrac
    obtain ⟨hdlt, hdgd⟩ := peek_eq_of_ne_null hdot (by decide)
    have hdlt' : s.current + n1 < s.source.length := hdlt
    have hdgd' : s.source.getD (s.current + n1) nullChar = '.' := hdgd
    set n2 := digitLoopAux (s.source.drop (s.current + n1 + 1)) with hn2
    have hd2 := digitLoopAux_digits (s.source.drop (s.current + n1 + 1))
    have hnle2 : n2 ≤ (s.source.drop (s.current + n1 + 1)).length := digitLoopAux_le _
    have hlen2 : (s.source.drop (s.current + n1 + 1)).length
        = s.source.length - (s.current + n1 + 1) := by simp
    refine ⟨rfl, by show s.current ≤ s.current + n1 + 1 + n2; omega,
      by show s.current + n1 + 1 + n2 ≤ s.source.length; omega, rfl,
      ⟨_, rfl, rfl⟩, ?_⟩
    show (s.source.take (s.current + n1 + 1 + n2)).count '\n'
      = (s.source.take s.current).count '\n'
    rw [count_take_add,
      count_zero_of_all_ne (fun c hc => isDigit_ne_nl (hd2 c hc)), Nat.add_zero,
      count_take_succ_ne _ _ hdlt' (by rw [hdgd']; decide), hcnt1]
  · rw [if_neg hfrac]
    refine ⟨rfl, by show s.current ≤ s.current + n1; omega,
      by show s.current + n1 ≤ s.source.length; omega, rfl, ⟨_, rfl, rfl⟩, ?_⟩
    exact hcnt1

/-- The facts about `scan_identifier`: line untouched, exactly one token
appended and stamped with it, cursor in bounds, no newline consumed. -/
theorem scan_identifier_facts (s : Scanner) (hle : s.current ≤ s.source.length) :
    (scan_identifier s).source = s.source ∧
    s.current ≤ (scan_identifier s).current ∧
    (scan_identifier s).current ≤ s.source.length ∧
    (scan_identifier s).line = s.line ∧
    (∃ t : Token, (scan_identifier s).tokens = s.tokens ++ [t] ∧
      t.line = (scan_identifier s).line) ∧
    (s.source.take (scan_identifier s).current).count '\n'
      = (s.source.take s.current).count '\n' := by
  unfold scan_identifier
  dsimp only
  set n := identLoopAux (s.source.drop s.current) with hn
  have hch := identLoopAux_chars (s.source.drop s.current)
  have hnle : n ≤ (s.source.drop s.current).length := identLoopAux_le _
  have hlen : (s.source.drop s.current).length = s.source.length - s.current := by simp
  have hcnt : (s.source.take (s.current + n)).count '\n'
      = (s.source.take s.current).count '\n' := by
    rw [count_take_add,
      count_zero_of_all_ne (fun c hc => is_alphanumeric_ne_nl (hch c hc)), Nat.add_zero]
  cases hkw : get_keyword_token
      ((s.source.drop s.start).take (s.current + n - s.start)) with
  | none =>
    exact ⟨rfl, by show s.current ≤ s.current + n; omega,
      by show s.current + n ≤ s.source.length; omega, rfl, ⟨_, rfl, rfl⟩, hcnt⟩
  | some tt =>
    exact ⟨rfl, by show s.current ≤ s.current + n; omega,
      by show s.current + n ≤ s.source.length; omega, rfl, ⟨_, rfl, rfl⟩, hcnt⟩

/-- An alphabetic character is not a newline. -/
theorem is_alpha_ne_nl {c : Char} (h : is_alpha c = true) : c ≠ '\n' := by
  intro hc
  subst hc
  exact absurd h (by decide)

set_option maxHeartbeats 1600000 in
/-- The master step lemma: every `scan_token` step from an in-bounds state
satisfies `StepFacts` — one case per dispatch branch of the Rust `match`. -/
theorem scan_token_step (s : Scanner) (h : s.current < s.source.length) :
    StepFacts s (scan_token s) := by
  unfold scan_token
  simp only [advance]
  by_cases h1 : s.source.getD s.current nullChar = '('
  · rw [if_pos h1]; exact step_simple_emit s _ h (by rw [h1]; decide)
  rw [if_neg h1]
  by_cases h2 : s.source.getD s.current nullChar = ')'
  · rw [if_pos h2]; exact step_simple_emit s _ h (by rw [h2]; decide)
  rw [if_neg h2]
  by_cases h3 : s.source.getD s.current nullChar = leftBraceChar
  · rw [if_pos h3]; exact step_simple_emit s _ h (by rw [h3]; decide)
  rw [if_neg h3]
  by_cases h4 : s.source.getD s.current nullChar = rightBraceChar
  · rw [if_pos h4]; exact step_simple_emit s _ h (by rw [h4]; decide)
  rw [if_neg h4]
  by_cases h5 : s.source.getD s.current nullChar = ','
  · rw [if_pos h5]; exact step_simple_emit s _ h (by rw [h5]; decide)
  rw [if_neg h5]
  by_cases h6 : s.source.getD s.current nullChar = '.'
  · rw [if_pos h6]; exact step_simple_emit s _ h (by rw [h6]; decide)
  rw [if_neg h6]
  by_cases h7 : s.source.getD s.current nullChar = '-'
  · rw [if_pos h7]; exact step_simple_emit s _ h (by rw [h7]; decide)
  rw [if_neg h7]
  by_cases h8 : s.source.getD s.current nullChar = '+'
  · rw [if_pos h8]; exact step_simple_emit s _ h (by rw [h8]; decide)
  rw [if_neg h8]
  by_cases h9 : s.source.getD s.current nullChar = ';'
  · rw [if_pos h9]; exact step_simple_emit s _ h (by rw [h9]; decide)
  rw [if_neg h9]
  by_cases h10 : s.source.getD s.current nullChar = '*'
  · rw [if_pos h10]; exact step_simple_emit s _ h (by rw [h10]; decide)
  rw [if_neg h10]
  by_cases h11 : s.source.getD s.current nullChar = '!'
  · rw [if_pos h11]
    by_cases h12 : (matchesChar { s with current := s.current + 1 } '=').2 = true
    · rw [if_pos h12]; exact step_match_emit s '=' _ h (by rw [h11]; decide) (by decide)
    · rw [if_neg h12]; exact step_match_emit s '=' _ h (by rw [h11]; decide) (by decide)
  rw [if_neg h11]
  by_cases h13 : s.source.getD s.current nullChar = '='
  · rw [if_pos h13]
    by_cases h14 : (matchesChar { s with current := s.current + 1 } '=').2 = true
    · rw [if_pos h14]; exact step_match_emit s '=' _ h (by rw [h13]; decide) (by decide)
    · rw [if_neg h14]; exact step_match_emit s '=' _ h (by rw [h13]; decide) (by decide)
  rw [if_neg h13]
  by_cases h15 : s.source.getD s.current nullChar = '<'
  · rw [if_pos h15]
    by_cases h16 : (matchesChar { s with current := s.current + 1 } '=').2 = true
    · rw [if_pos h16]; exact step_match_emit s '=' _ h (by rw [h15]; decide) (by decide)
    · rw [if_neg h16]; exact step_match_emit s '=' _ h (by rw [h15]; decide) (by decide)
  rw [if_neg h15]
  by_cases h17 : s.source.getD s.current nullChar = '>'
  · rw [if_pos h17]
    by_cases h18 : (matchesChar { s with current := s.current + 1 } '=').2 = true
    · rw [if_pos h18]; exact step_match_emit s '=' _ h (by rw [h17]; decide) (by decide)
    · rw [if_neg h18]; exact step_match_emit s '=' _ h (by rw [h17]; decide) (by decide)
  rw [if_neg h17]
  by_cases h19 : s.source.getD s.current nullChar = '/'
  · rw [if_pos h19]
    by_cases h20 : (matchesChar { s with current := s.current + 1 } '/').2 = true
    · rw [if_pos h20]
      -- line comment
      obtain ⟨heq, hlt, hgd⟩ := matchesChar_true h20
      have hlt' : s.current + 1 < s.source.length := hlt
      have hgd' : s.source.getD (s.current + 1) nullChar = '/' := hgd
      rw [heq]
      dsimp only
      set n := commentLoopAux (s.source.drop (s.current + 1 + 1)) with hn
      have hch := commentLoopAux_chars (s.source.drop (s.current + 1 + 1))
      have hnle : n ≤ (s.source.drop (s.current + 1 + 1)).length := commentLoopAux_le _
      have hlen : (s.source.drop (s.current + 1 + 1)).length
          = s.source.length - (s.current + 1 + 1) := by simp
      refine ⟨rfl, by show s.current < s.current + 1 + 1 + n; omega,
        by show s.current + 1 + 1 + n ≤ s.source.length; omega, le_refl _,
        Or.inl rfl, ?_⟩
      intro hinv
      show s.line = 1 + (s.source.take (s.current + 1 + 1 + n)).count '\n'
      rw [count_take_add, count_zero_of_all_ne hch, Nat.add_zero,
          count_take_succ_ne _ _ hlt' (by rw [hgd']; decide),
          count_take_succ_ne _ _ h (by rw [h19]; decide)]
      exact hinv
    · rw [if_neg h20]
      exact step_match_emit s '/' _ h (by rw [h19]; decide) (by decide)
  rw [if_neg h19]
  by_cases h21 : s.source.getD s.current nullChar = ' ' ∨
      s.source.getD s.current nullChar = '\r' ∨ s.source.getD s.current nullChar = '\t'
  · rw [if_pos h21]
    exact step_skip s h (by rcases h21 with hh | hh | hh <;> rw [hh] <;> decide)
  rw [if_neg h21]
  by_cases h22 : s.source.getD s.current nullChar = '\n'
  · rw [if_pos h22]
    exact step_newline s h h22
  rw [if_neg h22]
  by_cases h23 : s.source.getD s.current nullChar = '\"'
  · rw [if_pos h23]
    -- string literal
    set r := scan_string_literal { s with current := s.current + 1 } with hr
    obtain ⟨hsrc, hge, hle2, hline, htoks, hinvt⟩ :=
      scan_string_literal_facts { s with current := s.current + 1 }
        (by show s.current + 1 ≤ s.source.length; omega)
    have h1' : r.source = s.source := hsrc
    have h2' : s.current + 1 ≤ r.current := hge
    have h3' : r.current ≤ s.source.length := hle2
    have h4' : s.line ≤ r.line := hline
    have h5' : r.tokens = s.tokens ∨
        ∃ t : Token, r.tokens = s.tokens ++ [t] ∧ t.line = r.line := htoks
    refine ⟨h1', by omega, h3', h4', h5', ?_⟩
    intro hinv
    have hinv1 : s.line = 1 + (s.source.take (s.current + 1)).count '\n' := by
      rw [count_take_succ_ne _ _ h (by rw [h23]; decide)]
      exact hinv
    exact hinvt hinv1
  rw [if_neg h23]
  by_cases h24 : (s.source.getD s.current nullChar).isDigit = true
  · rw [if_pos h24]
    -- number literal
    set r := scan_number_literal { s with current := s.current + 1 } with hr
    obtain ⟨hsrc, hge, hle2, hline, htoks, hcnt⟩ :=
      scan_number_literal_facts { s with current := s.current + 1 }
        (by show s.current + 1 ≤ s.source.length; omega)
    have h1' : r.source = s.source := hsrc
    have h2' : s.current + 1 ≤ r.current := hge
    have h3' : r.current ≤ s.source.length := hle2
    have h4' : r.line = s.line := hline
    have h5' : ∃ t : Token, r.tokens = s.tokens ++ [t] ∧ t.line = r.line := htoks
    have h6' : (s.source.take r.current).count '\n'
        = (s.source.take (s.current + 1)).count '\n' := hcnt
    refine ⟨h1', by omega, h3', le_of_eq h4'.symm, Or.inr h5', ?_⟩
    intro hinv
    show r.line = 1 + (s.source.take r.current).count '\n'
    rw [h4', h6', count_take_succ_ne _ _ h (isDigit_ne_nl h24)]
    exact hinv
  rw [if_neg h24]
  by_cases h25 : is_alpha (s.source.getD s.current nullChar) = true
  · rw [if_pos h25]
    -- identifier / keyword
    set r := scan_identifier { s with current := s.current + 1 } with hr
    obtain ⟨hsrc, hge, hle2, hline, htoks, hcnt⟩ :=
      scan_identifier_facts { s with current := s.current + 1 }
        (by show s.current + 1 ≤ s.source.length; omega)
    have h1' : r.source = s.source := hsrc
    have h2' : s.current + 1 ≤ r.current := hge
    have h3' : r.current ≤ s.source.length := hle2
    have h4' : r.line = s.line := hline
    have h5' : ∃ t : Token, r.tokens = s.tokens ++ [t] ∧ t.line = r.line := htoks
    have h6' : (s.source.take r.current).count '\n'
        = (s.source.take (s.current + 1)).count '\n' := hcnt
    refine ⟨h1', by omega, h3', le_of_eq h4'.symm, Or.inr h5', ?_⟩
    intro hinv
    show r.line = 1 + (s.source.take r.current).count '\n'
    rw [h4', h6', count_take_succ_ne _ _ h (is_alpha_ne_nl h25)]
    exact hinv
  rw [if_neg h25]
  -- unexpected character
  refine ⟨rfl, Nat.lt_succ_self _, h, le_refl _, Or.inl rfl, ?_⟩
  intro hinv
  show s.line = 1 + (s.source.take (s.current + 1)).count '\n'
  rw [count_take_succ_ne _ _ h h22]
  exact hinv

/-- Every `scan_token` step from an in-bounds state consumes at least one
character: together with `scanLoopFuel_fuel_irrelevant` this shows the fuel
of the top-level loop never runs out. -/
theorem scan_token_current_lt (s : Scanner) (h : s.current < s.source.length) :
    s.current < (scan_token s).current :=
  (scan_token_step s h).current_lt

/-- `scan_token` never touches the source buffer. -/
theorem scan_token_source (s : Scanner) (h : s.current < s.source.length) :
    (scan_token s).source = s.source :=
  (scan_token_step s h).source_eq

/-- Any fuel of at least `source.length - current` (one unit per unconsumed
character) gives the same result: the fueled loop is the Rust `while` loop. -/
theorem scanLoopFuel_fuel_irrelevant :
    ∀ (fuel1 fuel2 : Nat) (s : Scanner),
      s.source.length - s.current ≤ fuel1 → s.source.length - s.current ≤ fuel2 →
      scanLoopFuel fuel1 s = scanLoopFuel fuel2 s
  | 0, fuel2, s => by
    intro h1 h2
    have hend : is_at_end s = true := by
      simp only [is_at_end, decide_eq_true_eq]
      omega
    cases fuel2 with
    | zero => rfl
    | succ m => simp [scanLoopFuel, hend]
  | fuel1 + 1, fuel2, s => by
    intro h1 h2
    by_cases hend : is_at_end s = true
    · cases fuel2 with
      | zero => simp [scanLoopFuel, hend]
      | succ m => simp [scanLoopFuel, hend]
    · have hlt : s.current < s.source.length := by
        simp only [is_at_end, decide_eq_true_eq] at hend
        omega
      cases fuel2 with
      | zero =>
        exfalso
        omega
      | succ m =>
        simp only [scanLoopFuel, hend, if_false]
        have hstep := scan_token_step { s with start := s.current } hlt
        have hsrc : (scan_token { s with start := s.current }).source = s.source :=
          hstep.source_eq
        have hcur : s.current < (scan_token { s with start := s.current }).current :=
          hstep.current_lt
        apply scanLoopFuel_fuel_irrelevant fuel1 m
        · rw [hsrc]; omega
        · rw [hsrc]; omega

/-! ### Chain lemmas for monotone line stamps -/

/-- Replacing the last element of a `≤`-chain by a larger one. -/
theorem chain_le_replace_last (xs : List Nat) (a b : Nat)
    (h : List.Chain' (· ≤ ·) (xs ++ [a])) (hab : a ≤ b) :
    List.Chain' (· ≤ ·) (xs ++ [b]) := by
  rw [List.chain'_append] at h ⊢
  refine ⟨h.1, List.chain'_singleton _, ?_⟩
  intro x hx y hy
  simp only [List.head?_cons, Option.mem_def, Option.some.injEq] at hy
  subst hy
  exact le_trans (h.2.2 x hx a (by simp)) hab

/-- Duplicating the last element of a `≤`-chain. -/
theorem chain_le_dup_last (xs : List Nat) (b : Nat)
    (h : List.Chain' (· ≤ ·) (xs ++ [b])) :
    List.Chain' (· ≤ ·) (xs ++ [b, b]) := by
  have hsplit : xs ++ [b, b] = (xs ++ [b]) ++ [b] := by simp
  rw [hsplit, List.chain'_append]
  refine ⟨h, List.chain'_singleton _, ?_⟩
  intro x hx y hy
  simp only [List.head?_cons, Option.mem_def, Option.some.injEq] at hy
  subst hy
  rw [List.getLast?_concat] at hx
  simp only [Option.mem_def, Option.some.injEq] at hx
  subst hx
  exact le_refl _

/-- One `scan_token` step preserves the monotone-line-stamp invariant. -/
theorem stepFacts_lineInv {s r : Scanner} (hf : StepFacts s r) (h : LineInv s) :
    LineInv r := by
  unfold LineInv at h ⊢
  have h' : List.Chain' (· ≤ ·) ((1 :: s.tokens.map Token.line) ++ [s.line]) := by
    simpa using h
  rcases hf.tokens_app with htok | ⟨t, htok, hline⟩
  · rw [htok]
    have h2 := chain_le_replace_last _ _ _ h' hf.line_le
    simpa using h2
  · rw [htok]
    have h2 := chain_le_replace_last _ _ _ h' hf.line_le
    have h3 := chain_le_dup_last _ _ h2
    have hmap : (s.tokens ++ [t]).map Token.line
        = s.tokens.map Token.line ++ [r.line] := by
      simp [hline]
    rw [hmap]
    simpa using h3

/-- The scan loop preserves the monotone-line-stamp invariant. -/
theorem scanLoopFuel_lineInv : ∀ (fuel : Nat) (s : Scanner),
    LineInv s → LineInv (scanLoopFuel fuel s)
  | 0, _, h => h
  | fuel + 1, s, h => by
    unfold scanLoopFuel
    split_ifs with hend
    · exact h
    · apply scanLoopFuel_lineInv fuel
      have hlt : s.current < s.source.length := by
        simp only [is_at_end, decide_eq_true_eq] at hend
        omega
      exact stepFacts_lineInv (scan_token_step { s with start := s.current } hlt) h

/-! ### Claim theorems: error reporting (C1-C4)

The code of `report` in src/main.rs runs `HAD_ERROR.set(false).unwrap()`.
Two consequences, both visible below: the flag can only ever hold `false`
(so the caller's "had error" check `HAD_ERROR.get().is_some_and(|e| *e)` can
never fire), and the second invocation of the hook in one process panics,
because `OnceLock::set` on a full cell returns `Err` and the result is
unwrapped.  The spec (and the dead `exit(65)` path of `run_file`) make clear
the intent was a flag that is *set to true* on every report. -/

/-- C1: the claim says `scan_tokens` terminates and returns an end-marker
terminated sequence for every input, even if lexical errors occurred.  The
code refutes it: on `"#@"` (two unexpected characters, hence two reports)
the second `report` panics, so the scan never returns; the panic-free part
of the pipeline is exactly `scanProcess ... = none`. -/
theorem scan_tokens_panics_on_second_unexpected_character :
    (scan_tokens (Scanner.new "#@".data)).errors.length = 2 ∧
    scanProcess none "#@".data = none := by decide

/-- C2: the claim says several unrecognized characters yield one report per
occurrence in a single completed scan.  The scanner itself does invoke the
hook once per occurrence with the right line and emits no token (first two
conjuncts, input `"#\n@"`), but the second hook invocation panics
(`OnceLock::set` on a full cell, unwrapped), so the scan does not complete
(third conjunct). -/
theorem unexpected_character_reports_and_second_report_panic :
    (scan_tokens (Scanner.new "#\n@".data)).errors =
      [(1, "Unexpected character."), (2, "Unexpected character.")] ∧
    (scan_tokens (Scanner.new "#\n@".data)).tokens = [⟨TokenType.eof, [], 2⟩] ∧
    scanProcess none "#\n@".data = none := by decide

/-- C3: the claim says every hook invocation sets the process-wide
"had error" indicator, so after an error the indicator reads as having had
an error.  The code sets the `OnceLock` to `false`: after a scan of `"#"`
that reported one error the cell holds `false` (reads as *no* error), and
any further invocation panics. -/
theorem report_sets_had_error_flag_to_false :
    (scan_tokens (Scanner.new "#".data)).errors.length = 1 ∧
    scanProcess none "#".data = some (scan_tokens (Scanner.new "#".data), some false) ∧
    report (some false) = none := by decide

/-- C4: the claim says scanning the same input twice with fresh Scanner
instances in one process always completes both times with identical output.
For the error-free fragment this holds (the model's `scan_tokens` is a pure
function), but on `"#"` the first run fills the `HAD_ERROR` cell and the
second run's single report panics, so the second scan never completes. -/
theorem rescanning_after_error_panics :
    scanProcess none "#".data = some (scan_tokens (Scanner.new "#".data), some false) ∧
    scanProcess (some false) "#".data = none := by decide

/-! ### Claim theorems: number and keyword scanning (C7, C8) -/

/-- C7: the number sub-scan consumes a fractional part only when the dot is
immediately followed by a digit: `"12.34"` scans to a single number token
with payload `12.34` (the rational `1234/100`), while `"12."` scans to the
number `12` followed by a dot-punctuation token for the trailing dot. -/
theorem number_fractional_part_only_with_digit_after_dot :
    (scan_tokens (Scanner.new "12.34".data)).tokens =
      [⟨TokenType.number (mkRat 1234 100), "12.34".data, 1⟩, ⟨TokenType.eof, [], 1⟩] ∧
    (scan_tokens (Scanner.new "12.".data)).tokens =
      [⟨TokenType.number 12, "12".data, 1⟩, ⟨TokenType.dot, ".".data, 1⟩,
       ⟨TokenType.eof, [], 1⟩] := by decide

/-- C8: the keyword table maps exactly the sixteen reserved spellings (first
conjunct: any other spelling is absent; second conjunct: each spelling maps
to its keyword kind), and the identifier sub-scan is longest-match:
`"class"` scans to the `class` keyword token while `"classify"` scans to a
single identifier token, with no keyword-prefix splitting. -/
theorem keyword_table_exact_and_longest_match :
    (∀ value : List Char,
      (get_keyword_token value).isSome = true ↔ value ∈ keywordSpellings) ∧
    ((get_keyword_token "and".data = some TokenType.and ∧
      get_keyword_token "class".data = some TokenType.class_ ∧
      get_keyword_token "else".data = some TokenType.else_ ∧
      get_keyword_token "false".data = some TokenType.false_ ∧
      get_keyword_token "for".data = some TokenType.for_ ∧
      get_keyword_token "fun".data = some TokenType.fun_ ∧
      get_keyword_token "if".data = some TokenType.if_ ∧
      get_keyword_token "nil".data = some TokenType.nil) ∧
     (get_keyword_token "or".data = some TokenType.or ∧
      get_keyword_token "print".data = some TokenType.print ∧
      get_keyword_token "return".data = some TokenType.return_ ∧
      get_keyword_token "super".data = some TokenType.super_ ∧
      get_keyword_token "this".data = some TokenType.this_ ∧
      get_keyword_token "true".data = some TokenType.true_ ∧
      get_keyword_token "var".data = some TokenType.var ∧
      get_keyword_token "while".data = some TokenType.while_)) ∧
    (scan_tokens (Scanner.new "class".data)).tokens =
      [⟨TokenType.class_, "class".data, 1⟩, ⟨TokenType.eof, [], 1⟩] ∧
    (scan_tokens (Scanner.new "classify".data)).tokens =
      [⟨TokenType.identifier "classify".data, "classify".data, 1⟩,
       ⟨TokenType.eof, [], 1⟩] := by
  refine ⟨?_, ⟨by decide, by decide⟩, by decide, by decide⟩
  intro value
  constructor
  · intro h
    by_contra hmem
    simp only [keywordSpellings, List.mem_cons, List.not_mem_nil, or_false,
      not_or] at hmem
    obtain ⟨n1, n2, n3, n4, n5, n6, n7, n8, n9, n10, n11, n12, n13, n14, n15, n16⟩ := hmem
    simp only [get_keyword_token, if_neg n1, if_neg n2, if_neg n3, if_neg n4,
      if_neg n5, if_neg n6, if_neg n7, if_neg n8, if_neg n9, if_neg n10,
      if_neg n11, if_neg n12, if_neg n13, if_neg n14, if_neg n15, if_neg n16] at h
    simp at h
  · intro h
    simp only [keywordSpellings, List.mem_cons, List.not_mem_nil, or_false] at h
    rcases h with rfl | rfl | rfl | rfl | rfl | rfl | rfl | rfl | rfl | rfl |
      rfl | rfl | rfl | rfl | rfl | rfl <;> decide

/-! ### String-literal sub-scan (C5, C6) -/

/-- When the suffix holds no closing quote the string loop consumes it all,
counting its newlines. -/
theorem stringLoopAux_no_quote (l : List Char) (h : '\"' ∉ l) :
    stringLoopAux l = (l.length, l.count '\n') := by
  induction l with
  | nil => simp [stringLoopAux]
  | cons c rest ih =>
    simp only [List.mem_cons, not_or] at h
    simp [stringLoopAux, Ne.symm h.1, ih h.2, List.count_cons, Nat.add_comm]

/-- When the suffix holds a closing quote the string loop stops at the first
one, counting the newlines strictly before it. -/
theorem stringLoopAux_finds_quote (mid rest : List Char) (h : '\"' ∉ mid) :
    stringLoopAux (mid ++ '\"' :: rest) = (mid.length, mid.count '\n') := by
  induction mid with
  | nil => simp [stringLoopAux]
  | cons c mid ih =>
    simp only [List.mem_cons, not_or] at h
    simp [stringLoopAux, Ne.symm h.1, ih h.2, List.count_cons, Nat.add_comm]

/-- C5: on an unterminated string literal the sub-scan emits no token,
leaves the cursor at end of input, and appends exactly one
"Unterminated string." report, at the line reached at end of input. -/
theorem scan_string_literal_unterminated (s : Scanner)
    (hq : '\"' ∉ s.source.drop s.current) (hle : s.current ≤ s.source.length) :
    scan_string_literal s =
      { s with current := s.source.length,
               line := s.line + (s.source.drop s.current).count '\n',
               errors := s.errors ++
                 [(s.line + (s.source.drop s.current).count '\n',
                   "Unterminated string.")] } := by
  have hlen : (s.source.drop s.current).length = s.source.length - s.current :=
    List.length_drop ..
  have hcur : s.current + (s.source.drop s.current).length = s.source.length := by
    omega
  unfold scan_string_literal
  rw [stringLoopAux_no_quote _ hq]
  simp only [hcur, is_at_end]
  rw [if_pos (by simp)]

/-- C5 witness: the state just after the opening quote of `"abc` (no closing
quote); no token is emitted, the cursor ends at end of input, and exactly one
"Unterminated string." report is appended; in particular the whole scan of
`"abc` yields only the end-marker token. -/
theorem scan_string_literal_unterminated_witness :
    scan_string_literal (Scanner.mk "\"abc".data 0 1 1 [] []) =
      Scanner.mk "\"abc".data 0 4 1 []
        [(1, "Unterminated string.")] ∧
    (scan_tokens (Scanner.new "\"abc".data)).tokens = [⟨TokenType.eof, [], 1⟩] ∧
    (scan_tokens (Scanner.new "\"abc".data)).errors = [(1, "Unterminated string.")] :=
  ⟨(scan_string_literal_unterminated (Scanner.mk "\"abc".data 0 1 1 [] [])
      (by decide) (by decide)).trans (by decide),
   by decide, by decide⟩

/-- C6: on a terminated string literal (`mid` is the text strictly between
the quotes, holding no quote of its own — but any other characters,
backslashes included, carry no special meaning), the sub-scan emits exactly
one string token whose payload is `mid`, whose lexeme is the quoted source
text, stamped with the line reached at the closing quote. -/
theorem scan_string_literal_terminated (s : Scanner) (mid after : List Char)
    (hsrc : s.source.drop s.start = '\"' :: (mid ++ '\"' :: after))
    (hcur : s.current = s.start + 1)
    (hmid : '\"' ∉ mid) :
    scan_string_literal s =
      { s with current := s.start + mid.length + 2,
               line := s.line + mid.count '\n',
               tokens := s.tokens ++
                 [⟨TokenType.string mid, '\"' :: (mid ++ ['\"']),
                   s.line + mid.count '\n'⟩] } := by
  have hdrop : s.source.drop s.current = mid ++ '\"' :: after := by
    rw [hcur, ← List.drop_drop, hsrc]
    rfl
  have hlensrc : s.source.length - s.start = mid.length + 2 + after.length := by
    have := congrArg List.length hsrc
    simp only [List.length_drop, List.length_cons, List.length_append] at this
    omega
  have hstartlt : s.start < s.source.length := by omega
  unfold scan_string_literal
  rw [hdrop, stringLoopAux_finds_quote _ _ hmid]
  have hend : ¬ (is_at_end
      { s with current := s.current + (mid.length, mid.count '\n').1,
               line := s.line + (mid.length, mid.count '\n').2 } = true) := by
    simp only [is_at_end, decide_eq_true_eq]
    simp only [hcur]
    omega
  rw [if_neg hend]
  simp only [advance, add_token]
  have harith1 : s.current + mid.length + 1 - 1 - (s.start + 1) = mid.length := by
    omega
  have harith2 : s.current + mid.length + 1 - s.start = mid.length + 2 := by
    omega
  have hdropstart1 : s.source.drop (s.start + 1) = mid ++ '\"' :: after := by
    rw [← hcur]; exact hdrop
  have hvalue : (s.source.drop (s.start + 1)).take (mid.length) = mid := by
    rw [hdropstart1]; exact List.take_left' rfl
  have hlex : (s.source.drop s.start).take (mid.length + 2) =
      '\"' :: (mid ++ ['\"']) := by
    rw [hsrc]
    simp only [List.take_succ_cons, List.cons.injEq, true_and]
    rw [show mid.length + 1 = mid.length + 1 from rfl]
    rw [List.take_append_eq_append_take]
    simp [List.take_of_length_le]
  simp only [harith1, harith2, hvalue, hlex]
  have : s.current + mid.length + 1 = s.start + mid.length + 2 := by omega
  rw [this]

/-- C6 witness: the state just after the opening quote of
`"Hello, world!"`; the emitted token's payload is exactly the text between
the quotes, and the whole scan yields that string token then the end-marker. -/
theorem scan_string_literal_terminated_witness :
    scan_string_literal (Scanner.mk "\"Hello, world!\"".data 0 1 1 [] []) =
      Scanner.mk "\"Hello, world!\"".data 0 15 1
        [⟨TokenType.string "Hello, world!".data, "\"Hello, world!\"".data, 1⟩] [] ∧
    (scan_tokens (Scanner.new "\"Hello, world!\"".data)).tokens =
      [⟨TokenType.string "Hello, world!".data, "\"Hello, world!\"".data, 1⟩,
       ⟨TokenType.eof, [], 1⟩] :=
  ⟨(scan_string_literal_terminated (Scanner.mk "\"Hello, world!\"".data 0 1 1 [] [])
      "Hello, world!".data [] (by decide) (by decide) (by decide)).trans (by decide),
   by decide⟩

/-! ### Claim theorems: line numbers (C9, C10) -/

/-- C9: from any state satisfying the invariant "line counter = 1 + newlines
consumed so far" (it holds initially and every step preserves it), a
`scan_token` step re-establishes the invariant at its final cursor — so the
at-most-one token it appends is stamped with exactly one plus the number of
newline characters consumed at the moment its lexeme completes.  In
particular a multi-line string literal is stamped with the line on which it
closes (see the witness). -/
theorem token_line_stamped_at_lexeme_completion (s : Scanner)
    (hline : s.line = 1 + (s.source.take s.current).count '\n')
    (hcur : s.current < s.source.length) :
    (scan_token s).line =
      1 + ((scan_token s).source.take (scan_token s).current).count '\n' ∧
    ((scan_token s).tokens = s.tokens ∨
      ∃ t : Token, (scan_token s).tokens = s.tokens ++ [t] ∧
        t.line = (scan_token s).line) := by
  have hf := scan_token_step s hcur
  refine ⟨?_, hf.tokens_app⟩
  rw [hf.source_eq]
  exact hf.line_inv hline

/-- C9 witness: the initial state of a two-line string input satisfies the
claim's hypotheses, and the multi-line string literal of that input is
stamped with line 2, the line on which it closes, not line 1 where it
opens. -/
theorem token_line_stamped_at_lexeme_completion_witness :
    (scan_token (Scanner.new "\"a\nb\"".data)).line =
      1 + ((scan_token (Scanner.new "\"a\nb\"".data)).source.take
        (scan_token (Scanner.new "\"a\nb\"".data)).current).count '\n' ∧
    (scan_tokens (Scanner.new "\"a\nb\"".data)).tokens =
      [⟨TokenType.string "a\nb".data, "\"a\nb\"".data, 2⟩, ⟨TokenType.eof, [], 2⟩] :=
  ⟨(token_line_stamped_at_lexeme_completion (Scanner.new "\"a\nb\"".data)
      (by decide) (by decide)).1,
   by decide⟩

/-- C10: for every input the returned token sequence (end-marker included)
has monotonically non-decreasing line fields, all at least 1: the line
stamps prefixed with 1 form a `≤`-chain. -/
theorem token_lines_monotone_from_one (source : List Char) :
    List.Chain' (· ≤ ·)
      (1 :: (scan_tokens (Scanner.new source)).tokens.map Token.line) := by
  have h0 : LineInv (Scanner.new source) := by
    unfold LineInv Scanner.new
    simp [List.chain'_cons, List.chain'_singleton]
  have h1 := scanLoopFuel_lineInv
    ((Scanner.new source).source.length - (Scanner.new source).current)
    (Scanner.new source) h0
  unfold scan_tokens
  unfold LineInv at h1
  simpa using h1

end LoxRs
